import Mathlib

/-! Verification development for a report-page scraper.  The embedding
models the extraction core of `scraper.py`: whitespace normalisation
(`clean_text`), labelled integer extraction (`extract_int`), engagement
section extraction (`extract_engagement_section`), HTML-table conversion
and slug-key derivation inside `parse_page`, and the per-run assembly in
`main`.  Strings are modelled as lists of characters (Python `str`
indexing is by code point, which agrees with `List Char` positions).
The regular-expression collaborator is modelled by a small token list
covering exactly the constructs the source's patterns use; for those
patterns greedy matching without backtracking coincides with the host
regex engine because every repeated character class excludes the first
character of the token that follows it. -/

namespace Scraper

/-- Whitespace test used by the modelled text primitives: the ASCII part
of the whitespace class of the host language (space, tab, newline,
carriage return, vertical tab, form feed).  The claims under study only
involve these characters. -/
def pyIsSpace (c : Char) : Bool :=
  c = ' ' || c = '\t' || c = '\n' || c = '\r' || c = '\x0b' || c = '\x0c'

/-- Convert a string literal to the character-list representation. -/
def chars (s : String) : List Char := s.data

/-- Accumulator form of Python `str.split()` with no separator argument:
`cur` holds the characters of the current chunk in reverse. -/
def splitWsAux (cur : List Char) (s : List Char) : List (List Char) :=
  match s with
  | [] => if cur.isEmpty then [] else [cur.reverse]
  | c :: rest =>
    if pyIsSpace c then
      if cur.isEmpty then splitWsAux [] rest
      else cur.reverse :: splitWsAux [] rest
    else splitWsAux (c :: cur) rest

/-- Model of Python `str.split()` with no separator argument: split on
runs of whitespace, discarding empty chunks. -/
def splitWs (s : List Char) : List (List Char) :=
  splitWsAux [] s

/-- Model of Python `str.strip` with a one-element strip set: remove the
characters satisfying `p` from both ends. -/
def pyStripP (p : Char → Bool) (s : List Char) : List Char :=
  ((s.dropWhile p).reverse.dropWhile p).reverse

/-- Model of `" ".join(words)`: concatenate the chunks with a single
space between consecutive chunks. -/
def joinWords : List (List Char) → List Char
  | [] => []
  | [w] => w
  | w :: ws => w ++ ' ' :: joinWords ws

/-- Embeds `clean_text` (scraper.py line 14): split on whitespace runs,
join the chunks with single spaces, and strip the ends. -/
def clean_text (s : List Char) : List Char :=
  pyStripP pyIsSpace (joinWords (splitWs s))

/-- Detects two adjacent space characters; used to state that
`clean_text` collapses whitespace runs to single spaces. -/
def hasTwoAdjacentSpaces : List Char → Bool
  | c1 :: c2 :: rest => (c1 = ' ' && c2 = ' ') || hasTwoAdjacentSpaces (c2 :: rest)
  | _ => false

example : clean_text (chars "  a \t b\n\nc  ") = chars "a b c" := by decide

example : clean_text (chars "") = chars "" := by decide

/-- Numeric value of a decimal digit character. -/
def digitVal (c : Char) : Nat := c.toNat - 48

/-- Accumulate the decimal value of a list of digit characters. -/
def digitsToNat (acc : Nat) : List Char → Nat
  | [] => acc
  | c :: rest => digitsToNat (acc * 10 + digitVal c) rest

/-- Digit tail of a Python integer literal: digits with single interior
underscores allowed between digits. -/
def pyIntDigitsAux (acc : Nat) : List Char → Option Nat
  | [] => some acc
  | '_' :: c :: rest =>
    if c.isDigit then pyIntDigitsAux (acc * 10 + digitVal c) rest else none
  | ['_'] => none
  | c :: rest =>
    if c.isDigit then pyIntDigitsAux (acc * 10 + digitVal c) rest else none

/-- Unsigned decimal core of Python `int(str)`: a leading digit followed
by digits with optional single interior underscores. -/
def pyIntCore (s : List Char) : Option Nat :=
  match s with
  | [] => none
  | c :: rest => if c.isDigit then pyIntDigitsAux (digitVal c) rest else none

/-- Model of Python `int(str)`: optional surrounding whitespace, optional
sign, then a decimal literal; any other shape raises `ValueError`
(modelled as `none`).  Restricted to ASCII digits and whitespace, which
covers every string this program can pass to it. -/
def pyIntOpt (s : List Char) : Option Int :=
  match pyStripP pyIsSpace s with
  | '+' :: rest => (pyIntCore rest).map Int.ofNat
  | '-' :: rest => (pyIntCore rest).map (fun n => -(Int.ofNat n))
  | t => (pyIntCore t).map Int.ofNat

/-- Exception-style wrapper for `pyIntOpt`. -/
def pyInt (s : List Char) : Except String Int :=
  match pyIntOpt s with
  | some n => Except.ok n
  | none => Except.error "ValueError: invalid literal for int"

/-- Exact decimal value `mant / 10 ^ scale`, the model of a parsed
float. -/
structure PyFloat where
  mant : Nat
  scale : Nat
deriving DecidableEq, Repr

/-- Model of Python `float(str)` restricted to the strings producible by
the `[\d.]+` capture class of the source's patterns, i.e. nonempty
strings of digits and dots: an integer part, an optional dot, and a
fraction part, with at least one digit overall; anything else (two dots,
a lone dot) raises `ValueError`.  The value is modelled exactly as a
decimal `mant / 10 ^ scale` (the `PyFloat` record); IEEE rounding is
not modelled and no claim depends on the numeric value. -/
def pyFloatOpt (s : List Char) : Option PyFloat :=
  let ip := s.takeWhile Char.isDigit
  let rest := s.dropWhile Char.isDigit
  match rest with
  | [] => if ip.isEmpty then none else some ⟨digitsToNat 0 ip, 0⟩
  | '.' :: fp =>
    if fp.all Char.isDigit && !(ip.isEmpty && fp.isEmpty) then
      some ⟨digitsToNat 0 ip * 10 ^ fp.length + digitsToNat 0 fp, fp.length⟩
    else none
  | _ => none

/-- Exception-style wrapper for `pyFloatOpt`. -/
def pyFloat (s : List Char) : Except String PyFloat :=
  match pyFloatOpt s with
  | some q => Except.ok q
  | none => Except.error "ValueError: could not convert string to float"

/-- Token of the regular-expression subset used by the source's
patterns: a literal, an uncaptured greedy star of a character class
(only `\s*` occurs), and a captured greedy plus of a character class
(`(\d+)`, `([\d.]+)`, `([^\x29]+)`, `([^\x27]+)` occur). -/
inductive Tok where
  | lit : List Char → Tok
  | star : (Char → Bool) → Tok
  | grp : (Char → Bool) → Tok

/-- Match a token list at the start of `s`, returning the list of
captured groups in order.  Greedy matching without backtracking, which
coincides with the host regex engine for every pattern in the source
because each repeated class excludes the first character of the token
that follows it. -/
def matchToks : List Tok → List Char → Option (List (List Char))
  | [], _ => some []
  | Tok.lit p :: ts, s =>
    if p.isPrefixOf s then matchToks ts (s.drop p.length) else none
  | Tok.star cls :: ts, s => matchToks ts (s.dropWhile cls)
  | Tok.grp cls :: ts, s =>
    let g := s.takeWhile cls
    if g.isEmpty then none
    else (matchToks ts (s.drop g.length)).map (fun gs => g :: gs)

/-- Model of `re.search`: try the pattern at each start position from
the left, returning the captured groups of the leftmost match. -/
def reSearch (ts : List Tok) : List Char → Option (List (List Char))
  | [] => matchToks ts []
  | c :: s' =>
    match matchToks ts (c :: s') with
    | some gs => some gs
    | none => reSearch ts s'

/-- Embeds `extract_int` (scraper.py line 18): search the pattern in the
text; on no match return the default; on a match return `int(group(1))`,
which raises (modelled as `Except.error`) when the match has no first
capture group or its text is not an integer literal. -/
def extract_int (pattern : List Tok) (text : List Char) (default : Int) :
    Except String Int :=
  match reSearch pattern text with
  | none => Except.ok default
  | some gs =>
    match gs.head? with
    | none => Except.error "IndexError: no such group"
    | some g => pyInt g

/-- Model of Python `str.find` returning the least index at which `pat`
occurs in `hay` (`none` models the -1 result). -/
def strFindAux (pat : List Char) : List Char → Nat → Option Nat
  | [], i => if pat.isPrefixOf ([] : List Char) then some i else none
  | c :: s', i => if pat.isPrefixOf (c :: s') then some i else strFindAux pat s' (i + 1)

/-- Least index of `pat` in `hay`, if any. -/
def strFind (hay pat : List Char) : Option Nat := strFindAux pat hay 0

/-- The `\s*` token. -/
def wsStar : Tok := Tok.star pyIsSpace

/-- The `(\d+)` token. -/
def digitsGroup : Tok := Tok.grp Char.isDigit

/-- Pattern `Total segments:\s*(\d+)` (scraper.py line 72). -/
def totalSegmentsPattern : List Tok :=
  [Tok.lit (chars "Total segments:"), wsStar, digitsGroup]

/-- Pattern `Chill mode segments:\s*(\d+)` (scraper.py line 73). -/
def chillSegmentsPattern : List Tok :=
  [Tok.lit (chars "Chill mode segments:"), wsStar, digitsGroup]

/-- Pattern `Experimental mode segments:\s*(\d+)` (scraper.py line 74). -/
def expSegmentsPattern : List Tok :=
  [Tok.lit (chars "Experimental mode segments:"), wsStar, digitsGroup]

/-- The `([\d\.]+)` token. -/
def numDotGroup : Tok := Tok.grp (fun c => c.isDigit || c = '.')

/-- Pattern `<label>\s*([\d\.]+)%\s*\(([^\x29]+)\)` shared by the three
engagement-rate fields (scraper.py lines 30, 34, 35). -/
def ratePattern (label : String) : List Tok :=
  [Tok.lit (chars label), wsStar, numDotGroup, Tok.lit (chars "%"), wsStar,
   Tok.lit (chars "("), Tok.grp (fun c => c ≠ ')'), Tok.lit (chars ")")]

/-- Pattern for the overall engagement rate line. -/
def overallPattern : List Tok := ratePattern "Overall engagement rate:"

/-- Pattern for the chill mode line. -/
def chillPattern : List Tok := ratePattern "Chill mode:"

/-- Pattern for the experimental mode line. -/
def expPattern : List Tok := ratePattern "Experimental mode:"

/-- Pattern `\[\x27([^\x27]+)\x27` extracting the first branch name from
the page title (scraper.py line 63). -/
def branchPattern : List Tok :=
  [Tok.lit (chars "['"), Tok.grp (fun c => c ≠ '\x27'), Tok.lit (chars "'")]

/-- Engagement section record (scraper.py lines 37-45). -/
structure Engagement where
  title : List Char
  overall : PyFloat
  overall_detail : List Char
  chill_mode : PyFloat
  chill_mode_detail : List Char
  experimental_mode : PyFloat
  experimental_mode_detail : List Char
deriving DecidableEq, Repr

/-- The literal heading `Engagement Rate Analysis (<name>)`. -/
def engagementHeading (section_name : List Char) : List Char :=
  chars "Engagement Rate Analysis (" ++ section_name ++ chars ")"

/-- Embeds `extract_engagement_section` (scraper.py lines 23-45): locate
the heading substring; if absent return nothing.  Otherwise restrict to
the 500-character window starting at the match position, require the
overall pattern to match inside it (else return nothing), and build the
record, defaulting the chill/experimental fields when their patterns do
not match.  `float` on a malformed capture such as `5..` raises, which
is modelled as `Except.error` (caught later by `parse_page`). -/
def extract_engagement_section (section_name text : List Char) :
    Except String (Option Engagement) :=
  match strFind text (engagementHeading section_name) with
  | none => Except.ok none
  | some section_start =>
    let section_text := (text.drop section_start).take 500
    match reSearch overallPattern section_text with
    | none => Except.ok none
    | some og => do
      let overall ← pyFloat (og.getD 0 [])
      let chillRes := reSearch chillPattern section_text
      let chill_mode ← match chillRes with
        | some cg => pyFloat (cg.getD 0 [])
        | none => pure ⟨0, 0⟩
      let expRes := reSearch expPattern section_text
      let experimental_mode ← match expRes with
        | some eg => pyFloat (eg.getD 0 [])
        | none => pure ⟨0, 0⟩
      pure (some
        { title := engagementHeading section_name
          overall
          overall_detail := og.getD 1 []
          chill_mode
          chill_mode_detail := (chillRes.map (fun cg => cg.getD 1 [])).getD []
          experimental_mode
          experimental_mode_detail := (expRes.map (fun eg => eg.getD 1 [])).getD [] })

instance {ε α : Type} [DecidableEq ε] [DecidableEq α] : DecidableEq (Except ε α) :=
  fun a b =>
  match a, b with
  | Except.ok a, Except.ok b =>
    if h : a = b then Decidable.isTrue (congrArg Except.ok h)
    else Decidable.isFalse (fun hh => h (Except.ok.inj hh))
  | Except.error e, Except.error f =>
    if h : e = f then Decidable.isTrue (congrArg Except.error h)
    else Decidable.isFalse (fun hh => h (Except.error.inj hh))
  | Except.ok _, Except.error _ => Decidable.isFalse (fun hh => Except.noConfusion hh)
  | Except.error _, Except.ok _ => Decidable.isFalse (fun hh => Except.noConfusion hh)

example :
    extract_int totalSegmentsPattern (chars "foo Total segments: 1200 bar") 0 =
      Except.ok 1200 := by decide

example : extract_int totalSegmentsPattern (chars "no match here") 7 = Except.ok 7 := by
  decide

example :
    extract_engagement_section (chars "time")
      (chars "Engagement Rate Analysis (time) Overall engagement rate: 85.5% (12.3 of 14.4 hours) Chill mode: 90.25% (10 of 11 hours)") =
      Except.ok (some
        { title := chars "Engagement Rate Analysis (time)"
          overall := ⟨855, 1⟩
          overall_detail := chars "12.3 of 14.4 hours"
          chill_mode := ⟨9025, 2⟩
          chill_mode_detail := chars "10 of 11 hours"
          experimental_mode := ⟨0, 0⟩
          experimental_mode_detail := [] }) := by
  decide

example : extract_engagement_section (chars "time") (chars "nothing relevant") =
    Except.ok none := by decide

/-- Association-list model of a Python dict under string keys: insertion
order is kept, assigning to an existing key overwrites its value in
place, and lookup scans from the front. -/
def dictInsert {β : Type} (d : List (List Char × β)) (k : List Char) (v : β) :
    List (List Char × β) :=
  match d with
  | [] => [(k, v)]
  | (k', v') :: rest => if k' = k then (k, v) :: rest else (k', v') :: dictInsert rest k v

/-- Lookup in the association-list dict model. -/
def dictLookup {β : Type} (k : List Char) : List (List Char × β) → Option β
  | [] => none
  | (k', v) :: rest => if k' = k then some v else dictLookup k rest

/-- Embeds the row dict comprehension (scraper.py lines 100-103): pair
header labels with cleaned cell texts for `min(header_count, cell_count)`
positions, inserting in order (a duplicate header label overwrites the
earlier cell under that label). -/
def buildRowObj (headers : List (List Char)) (cells : List (List Char)) :
    List (List Char × List Char) :=
  ((headers.zip cells).map (fun p => (p.1, clean_text p.2))).foldl
    (fun acc p => dictInsert acc p.1 p.2) []

/-- Decimal digit character of value `n < 10`. -/
def digitChar (n : Nat) : Char := Char.ofNat (48 + n)

/-- Fuelled decimal printer accumulator. -/
def natToCharsAux : Nat → Nat → List Char → List Char
  | 0, _, acc => acc
  | fuel + 1, n, acc =>
    if n < 10 then digitChar n :: acc
    else natToCharsAux fuel (n / 10) (digitChar (n % 10) :: acc)

/-- Model of Python `str(n)` for a natural number: its decimal digits. -/
def natToChars (n : Nat) : List Char := natToCharsAux (n + 1) n []

/-- The character class `[a-z0-9]` of the slug substitution. -/
def isKeyChar (c : Char) : Bool :=
  ('a' ≤ c && c ≤ 'z') || ('0' ≤ c && c ≤ '9')

/-- Model of `re.sub(r"[^a-z0-9]+", "_", s)`: replace every maximal run
of characters outside `[a-z0-9]` by a single underscore.  The flag
records whether the previous character was part of such a run. -/
def subNonAlnumAux (inRun : Bool) : List Char → List Char
  | [] => []
  | c :: rest =>
    if isKeyChar c then c :: subNonAlnumAux false rest
    else if inRun then subNonAlnumAux true rest
    else '_' :: subNonAlnumAux true rest

/-- Replace every run of non-`[a-z0-9]` characters by one underscore. -/
def subNonAlnum (s : List Char) : List Char := subNonAlnumAux false s

/-- Embeds the key derivation (scraper.py line 108):
`re.sub(r"[^a-z0-9]+", "_", title.lower()).strip("_") or f"table_\x7bi\x7d"`.
Lowercasing is modelled per character by `Char.toLower` (exact on
ASCII). -/
def derive_key (title : List Char) (i : Nat) : List Char :=
  let slug := pyStripP (fun c => c = '_') (subNonAlnum (title.map Char.toLower))
  if slug.isEmpty then chars "table_" ++ natToChars i else slug

/-- One `tr` element of a table: `allCells` models `select("th, td")`
(used for the header row), `dataCells` models `select("td")` (used for
data rows).  Cell contents are the raw `get_text()` strings. -/
structure RowE where
  allCells : List (List Char)
  dataCells : List (List Char)
deriving DecidableEq, Repr

/-- One `table` element: the text of the nearest preceding `h2` in
document order, if any, and the `tr` rows. -/
structure TableE where
  prevH2 : Option (List Char)
  rows : List RowE
deriving DecidableEq, Repr

/-- Output record for one table (scraper.py lines 109-113). -/
structure TableRecord where
  title : List Char
  headers : List (List Char)
  rows : List (List (List Char × List Char))
deriving DecidableEq, Repr

/-- Title of the `i`-th table (0-based): the cleaned text of the nearest
preceding `h2`, else the literal `"Table " + (i + 1)` (scraper.py
lines 86-87). -/
def tableTitle (i : Nat) (t : TableE) : List Char :=
  match t.prevH2 with
  | some h => clean_text h
  | none => chars "Table " ++ natToChars (i + 1)

/-- Per-table body of the extraction loop (scraper.py lines 84-113):
a zero-row table yields no entry; otherwise the first row's `th, td`
cells (cleaned) are the headers, each later row with nonempty `td` cells
and a nonempty row object contributes a row mapping, and the entry is
keyed by the derived slug. -/
def emitTable (i : Nat) (t : TableE) : Option (List Char × TableRecord) :=
  match t.rows with
  | [] => none
  | r0 :: rest =>
    let title := tableTitle i t
    let headers := r0.allCells.map clean_text
    let table_rows := rest.filterMap (fun r =>
      if r.dataCells.isEmpty then none
      else
        let row_obj := buildRowObj headers r.dataCells
        if row_obj.isEmpty then none else some row_obj)
    some (derive_key title i, { title := title, headers := headers, rows := table_rows })

/-- Entries emitted by the table loop, in document order with 0-based
indices from `enumerate`. -/
def tableEntries (tables : List TableE) : List (List Char × TableRecord) :=
  tables.enum.filterMap (fun p => emitTable p.1 p.2)

/-- The `data["tables"]` dict after the loop: sequential insertion of
the emitted entries (a repeated key overwrites). -/
def tablesMap (tables : List TableE) : List (List Char × TableRecord) :=
  (tableEntries tables).foldl (fun acc p => dictInsert acc p.1 p.2) []

/-- Structural view of a successfully fetched and parsed page: the `h1`
text if present, the flattened body text of `soup.get_text()` (NOT
cleaned), and the tables in document order. -/
structure DocE where
  h1 : Option (List Char)
  bodyText : List Char
  tables : List TableE
deriving DecidableEq, Repr

/-- The `data["metadata"]` record (scraper.py lines 68-70). -/
structure Metadata where
  page_title : Option (List Char)
  url : List Char
  branch_name : Option (List Char)
deriving DecidableEq, Repr

/-- The per-report record built by `parse_page` (scraper.py
lines 55-115). -/
structure ReportData where
  metadata : Metadata
  segments_total : Int
  segments_chill_mode : Int
  segments_experimental_mode : Int
  engagement_time : Option Engagement
  engagement_distance : Option Engagement
  tables : List (List Char × TableRecord)
deriving DecidableEq, Repr

/-- Embeds the body of `parse_page`'s try block after parsing
(scraper.py lines 55-115) over the structural document view.  The body
text is passed raw to the extractors, exactly as in the source; an
exception from a malformed float capture surfaces as `Except.error`. -/
def parseDoc (url : List Char) (d : DocE) : Except String ReportData :=
  let page_title := d.h1.map clean_text
  let branch_name := match page_title with
    | none => none
    | some pt => (reSearch branchPattern pt).bind (fun gs => gs.head?)
  match extract_int totalSegmentsPattern d.bodyText 0 with
  | Except.error e => Except.error e
  | Except.ok total =>
  match extract_int chillSegmentsPattern d.bodyText 0 with
  | Except.error e => Except.error e
  | Except.ok chillSeg =>
  match extract_int expSegmentsPattern d.bodyText 0 with
  | Except.error e => Except.error e
  | Except.ok expSeg =>
  match extract_engagement_section (chars "time") d.bodyText with
  | Except.error e => Except.error e
  | Except.ok etime =>
  match extract_engagement_section (chars "distance") d.bodyText with
  | Except.error e => Except.error e
  | Except.ok edist =>
    Except.ok
      { metadata := { page_title := page_title, url := url, branch_name := branch_name }
        segments_total := total
        segments_chill_mode := chillSeg
        segments_experimental_mode := expSeg
        engagement_time := etime
        engagement_distance := edist
        tables := tablesMap d.tables }

/-- Embeds `parse_page` (scraper.py lines 48-119): a fetch or parse
failure (`none`) and any exception inside the try block both yield
`None`. -/
def parse_page (url : List Char) (fetched : Option DocE) : Option ReportData :=
  match fetched with
  | none => none
  | some d =>
    match parseDoc url d with
    | Except.ok r => some r
    | Except.error _ => none

/-- The spec's variant of `parseDoc` in which the body text is first
normalised by `clean_text` before any pattern search runs over it.
This definition follows the spec's words, not the source, and exists to
be compared with `parseDoc`. -/
def parseDocCleaned (url : List Char) (d : DocE) : Except String ReportData :=
  parseDoc url { d with bodyText := clean_text d.bodyText }

/-- Outcome of one run of `main` (scraper.py lines 122-145): the
`results["data"]` mapping, whether the document was persisted, and the
process exit code. -/
structure MainResult where
  dataEntries : List (List Char × ReportData)
  persisted : Bool
  exitCode : Nat
deriving DecidableEq, Repr

/-- Embeds `main` (scraper.py lines 122-145) over the per-source
outcomes: `fetches` pairs each report name with the result of
`parse_page` on its URL, in iteration order.  Successful results are
inserted into `results["data"]`; the document is written only when at
least one report succeeded, else the process exits with code 1. -/
def mainRun (fetches : List (List Char × Option ReportData)) : MainResult :=
  let dataEntries := fetches.foldl (fun acc p =>
    match p.2 with
    | some pd => dictInsert acc p.1 pd
    | none => acc) []
  let success_count := fetches.countP (fun p => p.2.isSome)
  { dataEntries := dataEntries
    persisted := decide (0 < success_count)
    exitCode := if 0 < success_count then 0 else 1 }

example : derive_key (chars "---") 2 = chars "table_2" := by decide

example : derive_key (chars "Engagement & Rate (time)") 0 =
    chars "engagement_rate_time" := by decide

example :
    emitTable 0
      { prevH2 := some (chars "Results")
        rows :=
          [ { allCells := [chars "Mode", chars "Rate"], dataCells := [] },
            { allCells := [], dataCells := [chars "chill", chars "42.5%"] } ] } =
      some (chars "results",
        { title := chars "Results"
          headers := [chars "Mode", chars "Rate"]
          rows := [[(chars "Mode", chars "chill"), (chars "Rate", chars "42.5%")]] }) := by
  decide

/-! Generic lemmas about the dict model. -/

theorem dictLookup_dictInsert {β : Type} (d : List (List Char × β)) (lk ik : List Char)
    (v : β) :
    dictLookup lk (dictInsert d ik v) = if ik = lk then some v else dictLookup lk d := by
  induction d with
  | nil =>
    by_cases h : ik = lk <;> simp [dictInsert, dictLookup, h]
  | cons e rest ih =>
    obtain ⟨ek, ev⟩ := e
    simp only [dictInsert]
    by_cases h1 : ek = ik
    · subst h1
      by_cases h2 : ek = lk
      · subst h2; simp [dictLookup]
      · simp [dictLookup, h2]
    · simp only [if_neg h1]
      by_cases h2 : ek = lk
      · subst h2
        have h3 : ¬ (ik = ek) := fun hc => h1 hc.symm
        simp [dictLookup, h3]
      · simp [dictLookup, h2, ih]

theorem dictLookup_foldl_dictInsert {β : Type} (entries : List (List Char × β))
    (d : List (List Char × β)) (k : List Char) :
    dictLookup k (entries.foldl (fun acc p => dictInsert acc p.1 p.2) d) =
      match entries.reverse.find? (fun p => decide (p.1 = k)) with
      | some p => some p.2
      | none => dictLookup k d := by
  induction entries generalizing d with
  | nil => simp
  | cons e es ih =>
    simp only [List.foldl_cons, List.reverse_cons, List.find?_append, ih]
    cases hf : es.reverse.find? (fun p => decide (p.1 = k)) with
    | some p => simp [Option.or]
    | none =>
      simp only [Option.or, dictLookup_dictInsert]
      by_cases hek : e.1 = k
      · simp [List.find?, hek]
      · simp [List.find?, hek]

theorem dictLookup_dictInsert_isSome {β : Type} (d : List (List Char × β))
    (n k : List Char) (v : β) :
    dictLookup n (dictInsert d k v) ≠ none ↔ n = k ∨ dictLookup n d ≠ none := by
  rw [dictLookup_dictInsert]
  by_cases h : k = n
  · subst h; simp
  · have : ¬ (n = k) := fun hc => h hc.symm
    simp [if_neg h, this]

/-! Theorems for the frozen claims. -/

/-- C1: for every input text and section name, `extract_engagement_section`
returns nothing when the heading substring is absent from the text, and
also returns nothing when the heading is present at position `i` but the
overall engagement rate pattern does not match inside the 500-character
window starting at `i`, regardless of what matches elsewhere. -/
theorem C1_engagement_section_heading_and_window_gate (name text : List Char) :
    (strFind text (engagementHeading name) = none →
       extract_engagement_section name text = Except.ok none) ∧
    (∀ i, strFind text (engagementHeading name) = some i →
       reSearch overallPattern ((text.drop i).take 500) = none →
       extract_engagement_section name text = Except.ok none) := by
  constructor
  · intro h
    unfold extract_engagement_section
    rw [h]
  · intro i hi ho
    unfold extract_engagement_section
    rw [hi]
    simp only [ho]

/-- Witness for C1: a text with no heading, and a text whose heading is
present while the overall pattern never matches (the chill field alone
does not rescue the section). -/
theorem C1_engagement_section_heading_and_window_gate_witness :
    extract_engagement_section (chars "time") (chars "no heading here") = Except.ok none ∧
    extract_engagement_section (chars "time")
      (chars "Engagement Rate Analysis (time) Chill mode: 1.0% (a)") = Except.ok none := by
  constructor
  · exact (C1_engagement_section_heading_and_window_gate (chars "time")
      (chars "no heading here")).1 (by decide)
  · exact (C1_engagement_section_heading_and_window_gate (chars "time")
      (chars "Engagement Rate Analysis (time) Chill mode: 1.0% (a)")).2 0
      (by decide) (by decide)

/-- C2 counterexample: the claim says `extract_int` never raises for any
pattern; but for the pattern `(x+)` (a match whose first capture group is
not an integer literal) on the text `x`, `int(group(1))` raises a
`ValueError`, modelled as `Except.error`. -/
theorem C2_extract_int_raises_counterexample :
    extract_int [Tok.grp (fun c => c = 'x')] (chars "x") 0 =
      Except.error "ValueError: invalid literal for int" := by decide

/-- C2 (amended): `extract_int` never raises when the pattern does not
match, returning exactly the supplied default; when the pattern matches
and its first capture group is a valid integer literal it returns that
integer.  (A match whose first group is missing or not an integer
literal raises, per the counterexample.) -/
theorem C2_extract_int_default_and_match (pattern : List Tok) (text : List Char)
    (default : Int) :
    (reSearch pattern text = none →
       extract_int pattern text default = Except.ok default) ∧
    (∀ gs g n, reSearch pattern text = some gs → gs.head? = some g →
       pyIntOpt g = some n → extract_int pattern text default = Except.ok n) := by
  constructor
  · intro h
    unfold extract_int
    rw [h]
  · intro gs g n h1 h2 h3
    unfold extract_int
    rw [h1]
    simp only [h2, pyInt, h3]

/-- Witness for C2: the default is returned verbatim on a no-match, and
a digit capture is parsed on a match. -/
theorem C2_extract_int_default_and_match_witness :
    extract_int totalSegmentsPattern (chars "no match here") 7 = Except.ok 7 ∧
    extract_int totalSegmentsPattern (chars "Total segments: 1200") 0 = Except.ok 1200 := by
  constructor
  · exact (C2_extract_int_default_and_match totalSegmentsPattern
      (chars "no match here") 7).1 (by decide)
  · exact (C2_extract_int_default_and_match totalSegmentsPattern
      (chars "Total segments: 1200") 0).2 [chars "1200"] (chars "1200") 1200
      (by decide) (by decide) (by decide)

/-- C3 counterexample: the body text is handed to the extractors raw,
not `clean_text`-normalised.  On a body text containing
`"Total\nsegments: 5"` the source finds no match (the literal label
`"Total segments:"` is broken by the newline) and yields 0, while the
spec-modelled variant that cleans the body text first yields 5. -/
theorem C3_body_text_not_cleaned_counterexample :
    (parseDoc (chars "u")
        { h1 := none, bodyText := chars "Total\nsegments: 5", tables := [] }).map
      (fun r => r.segments_total) = Except.ok 0 ∧
    (parseDocCleaned (chars "u")
        { h1 := none, bodyText := chars "Total\nsegments: 5", tables := [] }).map
      (fun r => r.segments_total) = Except.ok 5 ∧
    parseDoc (chars "u")
        { h1 := none, bodyText := chars "Total\nsegments: 5", tables := [] } ≠
      parseDocCleaned (chars "u")
        { h1 := none, bodyText := chars "Total\nsegments: 5", tables := [] } := by
  refine ⟨by decide, by decide, by decide⟩

/-- C3 (amended): `parse_page` hands the raw flattened body text to
`extract_int` and `extract_engagement_section` without applying
`clean_text`; the spec's normalised model agrees with the source exactly
when the body text is already a `clean_text` fixed point. -/
theorem C3_body_text_raw_agrees_when_clean (url : List Char) (d : DocE)
    (h : clean_text d.bodyText = d.bodyText) :
    parseDoc url d = parseDocCleaned url d := by
  unfold parseDocCleaned
  rw [h]

/-- Witness for C3: an already-normalised body text. -/
theorem C3_body_text_raw_agrees_when_clean_witness :
    parseDoc (chars "u") { h1 := none, bodyText := chars "Total segments: 5", tables := [] } =
      parseDocCleaned (chars "u")
        { h1 := none, bodyText := chars "Total segments: 5", tables := [] } :=
  C3_body_text_raw_agrees_when_clean (chars "u")
    { h1 := none, bodyText := chars "Total segments: 5", tables := [] } (by decide)

/-- C6: the tables mapping resolves every key to the record of the last
table in document order that emitted that key (last-write-wins, no
disambiguation and no error), and the record assembled by `parseDoc`
carries exactly that mapping. -/
theorem C6_tables_last_write_wins :
    (∀ tables k, dictLookup k (tablesMap tables) =
       ((tableEntries tables).reverse.find? (fun p => decide (p.1 = k))).map Prod.snd) ∧
    (∀ url d r, parseDoc url d = Except.ok r → r.tables = tablesMap d.tables) := by
  constructor
  · intro tables k
    unfold tablesMap
    rw [dictLookup_foldl_dictInsert]
    cases (tableEntries tables).reverse.find? (fun p => decide (p.1 = k)) with
    | some p => simp
    | none => simp [dictLookup]
  · intro url d r h
    unfold parseDoc at h
    cases h1 : extract_int totalSegmentsPattern d.bodyText 0 with
    | error e => simp only [h1] at h; exact Except.noConfusion h
    | ok t =>
      cases h2 : extract_int chillSegmentsPattern d.bodyText 0 with
      | error e => simp only [h1, h2] at h; exact Except.noConfusion h
      | ok c =>
        cases h3 : extract_int expSegmentsPattern d.bodyText 0 with
        | error e => simp only [h1, h2, h3] at h; exact Except.noConfusion h
        | ok x =>
          cases h4 : extract_engagement_section (chars "time") d.bodyText with
          | error e => simp only [h1, h2, h3, h4] at h; exact Except.noConfusion h
          | ok et =>
            cases h5 : extract_engagement_section (chars "distance") d.bodyText with
            | error e => simp only [h1, h2, h3, h4, h5] at h; exact Except.noConfusion h
            | ok ed =>
              simp only [h1, h2, h3, h4, h5, Except.ok.injEq] at h
              rw [← h]

/-- Witness for C6: a trivially succeeding parse whose tables mapping is
the (empty) fold of its emitted entries. -/
theorem C6_tables_last_write_wins_witness :
    ({ metadata := { page_title := none, url := chars "u", branch_name := none }
       segments_total := 0
       segments_chill_mode := 0
       segments_experimental_mode := 0
       engagement_time := none
       engagement_distance := none
       tables := [] } : ReportData).tables = tablesMap [] :=
  C6_tables_last_write_wins.2 (chars "u") { h1 := none, bodyText := [], tables := [] }
    { metadata := { page_title := none, url := chars "u", branch_name := none }
      segments_total := 0
      segments_chill_mode := 0
      segments_experimental_mode := 0
      engagement_time := none
      engagement_distance := none
      tables := [] } (by decide)

/-- C7: a table with zero rows emits no entry, a document whose only
table has zero rows has an empty tables mapping, and every entry of the
tables mapping originates from a table with at least one row. -/
theorem C7_zero_row_table_emits_nothing :
    (∀ (i : Nat) (h2 : Option (List Char)),
       emitTable i { prevH2 := h2, rows := [] } = none) ∧
    (∀ h2 : Option (List Char), tablesMap [{ prevH2 := h2, rows := [] }] = []) ∧
    (∀ tables e, e ∈ tableEntries tables →
       ∃ p, p ∈ tables.enum ∧ p.2.rows ≠ [] ∧ emitTable p.1 p.2 = some e) := by
  refine ⟨fun i h2 => rfl, fun h2 => rfl, ?_⟩
  intro tables e he
  unfold tableEntries at he
  rw [List.mem_filterMap] at he
  obtain ⟨p, hp, hpe⟩ := he
  refine ⟨p, hp, ?_, hpe⟩
  intro hrows
  obtain ⟨i, t⟩ := p
  obtain ⟨h2, rows⟩ := t
  simp only at hrows
  subst hrows
  simp [emitTable] at hpe

/-- Witness for C7: the single emitted entry of a one-table document
comes from its (nonempty-rowed) table. -/
theorem C7_zero_row_table_emits_nothing_witness :
    ∃ p,
      p ∈ ([{ prevH2 := some (chars "T")
              rows := [{ allCells := [chars "A"], dataCells := [] }] }] : List TableE).enum ∧
      p.2.rows ≠ [] ∧ emitTable p.1 p.2 =
        some (chars "t",
          { title := chars "T", headers := [chars "A"], rows := [] }) :=
  C7_zero_row_table_emits_nothing.2.2
    [{ prevH2 := some (chars "T")
       rows := [{ allCells := [chars "A"], dataCells := [] }] }]
    (chars "t", { title := chars "T", headers := [chars "A"], rows := [] })
    (by decide)

/-- C10: a table with exactly one row (a header row and nothing else) is
not skipped: it emits a record whose headers are the cleaned cells of
that row and whose rows sequence is empty, and a document consisting of
that table alone carries exactly that record in its tables mapping. -/
theorem C10_header_only_table_emitted (i : Nat) (h2 : Option (List Char)) (r0 : RowE) :
    emitTable i { prevH2 := h2, rows := [r0] } =
      some (derive_key (tableTitle i { prevH2 := h2, rows := [r0] }) i,
        { title := tableTitle i { prevH2 := h2, rows := [r0] }
          headers := r0.allCells.map clean_text
          rows := [] }) ∧
    tablesMap [{ prevH2 := h2, rows := [r0] }] =
      [(derive_key (tableTitle 0 { prevH2 := h2, rows := [r0] }) 0,
        { title := tableTitle 0 { prevH2 := h2, rows := [r0] }
          headers := r0.allCells.map clean_text
          rows := [] })] := by
  exact ⟨rfl, rfl⟩

/-- C9: the data mapping of a run contains exactly the names whose
fetch-and-parse succeeded; when all sources fail nothing is persisted
and the exit code is 1; and one failing plus one succeeding source
yields exactly one entry, a persisted document, and exit code 0. -/
theorem C9_mainRun_success_accounting (fetches : List (List Char × Option ReportData)) :
    (∀ n, dictLookup n (mainRun fetches).dataEntries ≠ none ↔
       ∃ r, (n, some r) ∈ fetches) ∧
    ((∀ p ∈ fetches, p.2 = none) →
       (mainRun fetches).persisted = false ∧ (mainRun fetches).exitCode = 1) ∧
    (∀ (n1 n2 : List Char) (r : ReportData),
       (mainRun [(n1, none), (n2, some r)]).dataEntries = [(n2, r)] ∧
       (mainRun [(n1, none), (n2, some r)]).persisted = true ∧
       (mainRun [(n1, none), (n2, some r)]).exitCode = 0) := by
  refine ⟨?_, ?_, fun n1 n2 r => ⟨rfl, rfl, rfl⟩⟩
  · intro n
    unfold mainRun
    simp only
    have key : ∀ (fs : List (List Char × Option ReportData)) (d : List (List Char × ReportData)),
        dictLookup n (fs.foldl (fun acc p =>
          match p.2 with
          | some pd => dictInsert acc p.1 pd
          | none => acc) d) ≠ none ↔
          (∃ r, (n, some r) ∈ fs) ∨ dictLookup n d ≠ none := by
      intro fs
      induction fs with
      | nil => simp
      | cons p ps ih =>
        intro d
        obtain ⟨pn, pr⟩ := p
        cases pr with
        | none =>
          simp only [List.foldl_cons, ih]
          constructor
          · rintro (⟨r, hr⟩ | hd)
            · exact Or.inl ⟨r, List.mem_cons_of_mem _ hr⟩
            · exact Or.inr hd
          · rintro (⟨r, hr⟩ | hd)
            · rcases List.mem_cons.mp hr with hh | ht
              · cases hh
              · exact Or.inl ⟨r, ht⟩
            · exact Or.inr hd
        | some pd =>
          simp only [List.foldl_cons, ih, dictLookup_dictInsert_isSome]
          constructor
          · rintro (⟨r, hr⟩ | hn | hd)
            · exact Or.inl ⟨r, List.mem_cons_of_mem _ hr⟩
            · exact Or.inl ⟨pd, by rw [hn]; exact List.mem_cons_self _ _⟩
            · exact Or.inr hd
          · rintro (⟨r, hr⟩ | hd)
            · rcases List.mem_cons.mp hr with hh | ht
              · rw [Prod.mk.injEq] at hh
                exact Or.inr (Or.inl hh.1)
              · exact Or.inl ⟨r, ht⟩
            · exact Or.inr (Or.inr hd)
    rw [key fetches []]
    simp [dictLookup]
  · intro hall
    have hcount : fetches.countP (fun p => p.2.isSome) = 0 := by
      rw [List.countP_eq_zero]
      intro p hp
      rw [hall p hp]
      simp
    unfold mainRun
    simp [hcount]

theorem charLe_iff (a b : Char) : a ≤ b ↔ a.toNat ≤ b.toNat := Iff.rfl

theorem u32Le_iff (a b : UInt32) : a ≤ b ↔ a.toNat ≤ b.toNat := Iff.rfl

theorem isKeyChar_iff (c : Char) :
    isKeyChar c = true ↔
      (97 ≤ c.toNat ∧ c.toNat ≤ 122) ∨ (48 ≤ c.toNat ∧ c.toNat ≤ 57) := by
  simp [isKeyChar, charLe_iff]

theorem isAlphanum_iff (c : Char) :
    Char.isAlphanum c = true ↔
      (65 ≤ c.toNat ∧ c.toNat ≤ 90) ∨ (97 ≤ c.toNat ∧ c.toNat ≤ 122) ∨
      (48 ≤ c.toNat ∧ c.toNat ≤ 57) := by
  simp [Char.isAlphanum, Char.isAlpha, Char.isUpper, Char.isLower, Char.isDigit,
    u32Le_iff, Char.toNat, UInt32.size]
  omega

theorem isKeyChar_toLower_false (c : Char) (h : Char.isAlphanum c = false) :
    isKeyChar (Char.toLower c) = false := by
  have hn : ¬ ((65 ≤ c.toNat ∧ c.toNat ≤ 90) ∨ (97 ≤ c.toNat ∧ c.toNat ≤ 122) ∨
      (48 ≤ c.toNat ∧ c.toNat ≤ 57)) := by
    rw [← isAlphanum_iff]
    simp [h]
  have ht : Char.toLower c = c := by
    show (if c.toNat ≥ 65 ∧ c.toNat ≤ 90 then Char.ofNat (c.toNat + 32) else c) = c
    rw [if_neg]
    intro hcond
    exact hn (Or.inl hcond)
  rw [ht, Bool.eq_false_iff]
  intro hk
  have := (isKeyChar_iff c).mp hk
  omega

theorem subNonAlnumAux_mem (s : List Char) : ∀ (b : Bool) (c : Char),
    c ∈ subNonAlnumAux b s → isKeyChar c = true ∨ c = '_' := by
  induction s with
  | nil =>
    intro b c hc
    simp [subNonAlnumAux] at hc
  | cons a rest ih =>
    intro b c hc
    simp only [subNonAlnumAux] at hc
    split at hc
    · rcases List.mem_cons.mp hc with rfl | hmem
      · rename_i ha
        exact Or.inl ha
      · exact ih false c hmem
    · split at hc
      · exact ih true c hc
      · rcases List.mem_cons.mp hc with rfl | hmem
        · exact Or.inr rfl
        · exact ih true c hmem

theorem subNonAlnumAux_all_nonkey (s : List Char)
    (hall : ∀ c ∈ s, isKeyChar c = false) :
    subNonAlnumAux true s = [] ∧
      subNonAlnumAux false s = if s.isEmpty then [] else ['_'] := by
  induction s with
  | nil => exact ⟨rfl, rfl⟩
  | cons a rest ih =>
    have ha : isKeyChar a = false := hall a (List.mem_cons_self a rest)
    have ih' := ih (fun c hc => hall c (List.mem_cons_of_mem a hc))
    constructor
    · simp [subNonAlnumAux, ha, ih'.1]
    · simp [subNonAlnumAux, ha, ih'.1]

theorem mem_pyStripP (p : Char → Bool) (s : List Char) (c : Char)
    (hc : c ∈ pyStripP p s) : c ∈ s := by
  unfold pyStripP at hc
  rw [List.mem_reverse] at hc
  have h1 : c ∈ (s.dropWhile p).reverse := List.dropWhile_subset p hc
  rw [List.mem_reverse] at h1
  exact List.dropWhile_subset p h1

theorem pyStripP_head?_false (p : Char → Bool) (s : List Char) (c : Char)
    (hc : (pyStripP p s).head? = some c) : p c = false := by
  unfold pyStripP at hc
  rw [List.head?_reverse] at hc
  have hne : (s.dropWhile p).reverse.dropWhile p ≠ [] := by
    intro h0
    rw [h0] at hc
    simp at hc
  have hsplit : (s.dropWhile p).reverse.takeWhile p ++
      (s.dropWhile p).reverse.dropWhile p = (s.dropWhile p).reverse :=
    List.takeWhile_append_dropWhile p _
  have hlast : (s.dropWhile p).reverse.getLast? = some c := by
    rw [← hsplit, List.getLast?_append_of_ne_nil _ hne]
    exact hc
  rw [List.getLast?_reverse] at hlast
  have hd := List.head?_dropWhile_not p s
  rw [hlast] at hd
  exact hd

theorem pyStripP_getLast?_false (p : Char → Bool) (s : List Char) (c : Char)
    (hc : (pyStripP p s).getLast? = some c) : p c = false := by
  unfold pyStripP at hc
  rw [List.getLast?_reverse] at hc
  have hd := List.head?_dropWhile_not p (s.dropWhile p).reverse
  rw [hc] at hd
  exact hd

theorem isKeyChar_digitChar (m : Nat) (hm : m < 10) :
    isKeyChar (digitChar m) = true := by
  interval_cases m <;> decide

theorem natToCharsAux_mem (fuel : Nat) : ∀ (n : Nat) (acc : List Char),
    (∀ c ∈ acc, isKeyChar c = true) →
    ∀ c ∈ natToCharsAux fuel n acc, isKeyChar c = true := by
  induction fuel with
  | zero => intro n acc hacc c hc; exact hacc c hc
  | succ fuel ih =>
    intro n acc hacc c hc
    rw [natToCharsAux] at hc
    split at hc
    · rcases List.mem_cons.mp hc with rfl | hmem
      · rename_i hlt
        exact isKeyChar_digitChar n hlt
      · exact hacc c hmem
    · refine ih (n / 10) _ ?_ c hc
      intro d hd
      rcases List.mem_cons.mp hd with rfl | hmem
      · exact isKeyChar_digitChar (n % 10) (Nat.mod_lt n (by omega))
      · exact hacc d hmem

theorem natToCharsAux_ne_nil (fuel : Nat) : ∀ (n : Nat) (acc : List Char),
    (fuel ≠ 0 ∨ acc ≠ []) → natToCharsAux fuel n acc ≠ [] := by
  induction fuel with
  | zero =>
    intro n acc h
    rcases h with h | h
    · exact absurd rfl h
    · simpa [natToCharsAux] using h
  | succ fuel ih =>
    intro n acc h
    rw [natToCharsAux]
    split
    · simp
    · exact ih (n / 10) _ (Or.inr (by simp))

theorem natToChars_ne_nil (n : Nat) : natToChars n ≠ [] :=
  natToCharsAux_ne_nil (n + 1) n [] (Or.inl (by omega))

theorem natToChars_mem (n : Nat) : ∀ c ∈ natToChars n, isKeyChar c = true :=
  natToCharsAux_mem (n + 1) n [] (fun c hc => absurd hc (List.not_mem_nil c))

/-- C5: every derived table key consists only of lowercase `[a-z0-9]`
characters and underscores, never starts or ends with an underscore,
falls back to `"table_" + i` for a title with no alphanumeric
characters, and in particular the title `"---"` at index 2 yields
`"table_2"`. -/
theorem C5_derive_key_shape (title : List Char) (i : Nat) :
    (∀ c ∈ derive_key title i, isKeyChar c = true ∨ c = '_') ∧
    (∀ c, (derive_key title i).head? = some c → c ≠ '_') ∧
    (∀ c, (derive_key title i).getLast? = some c → c ≠ '_') ∧
    ((∀ c ∈ title, Char.isAlphanum c = false) →
       derive_key title i = chars "table_" ++ natToChars i) ∧
    derive_key (chars "---") 2 = chars "table_2" := by
  refine ⟨?_, ?_, ?_, ?_, by decide⟩
  · intro c hc
    simp only [derive_key] at hc
    split at hc
    · rcases List.mem_append.mp hc with hl | hr
      · have htab : ∀ c ∈ chars "table_", isKeyChar c = true ∨ c = '_' := by decide
        exact htab c hl
      · exact Or.inl (natToChars_mem i c hr)
    · exact subNonAlnumAux_mem _ false c (mem_pyStripP _ _ c hc)
  · intro c hc
    simp only [derive_key] at hc
    split at hc
    · rw [show (chars "table_" ++ natToChars i).head? = some 't' from rfl] at hc
      rw [Option.some.injEq] at hc
      subst hc
      decide
    · have := pyStripP_head?_false _ _ c hc
      simpa using this
  · intro c hc
    simp only [derive_key] at hc
    split at hc
    · rw [List.getLast?_append_of_ne_nil _ (natToChars_ne_nil i)] at hc
      have hk := natToChars_mem i c (List.mem_of_getLast?_eq_some hc)
      intro he
      rw [he] at hk
      exact absurd hk (by decide)
    · have := pyStripP_getLast?_false _ _ c hc
      simpa using this
  · intro hall
    have hnk : ∀ c ∈ title.map Char.toLower, isKeyChar c = false := by
      intro c hc
      rcases List.mem_map.mp hc with ⟨a, ha, rfl⟩
      exact isKeyChar_toLower_false a (hall a ha)
    have hsub := (subNonAlnumAux_all_nonkey (title.map Char.toLower) hnk).2
    have hslug : pyStripP (fun c => c = '_') (subNonAlnum (title.map Char.toLower)) = [] := by
      rw [subNonAlnum, hsub]
      split
      · rfl
      · rfl
    simp [derive_key, hslug]

/-- Witness for C5: a concrete mixed title has a non-underscore leading
key character, and the all-dashes title takes the index fallback. -/
theorem C5_derive_key_shape_witness :
    ('m' ≠ '_') ∧ derive_key (chars "---") 2 = chars "table_" ++ natToChars 2 := by
  constructor
  · exact (C5_derive_key_shape (chars "My Title!") 0).2.1 'm' (by decide)
  · exact (C5_derive_key_shape (chars "---") 2).2.2.2.1 (by decide)

theorem splitWsAux_good (s : List Char) : ∀ (cur : List Char),
    (∀ c ∈ cur, pyIsSpace c = false) →
    ∀ w ∈ splitWsAux cur s, w ≠ [] ∧ ∀ c ∈ w, pyIsSpace c = false := by
  induction s with
  | nil =>
    intro cur hcur w hw
    simp only [splitWsAux] at hw
    split at hw
    · simp at hw
    · rename_i hne
      rw [List.mem_singleton] at hw
      subst hw
      refine ⟨?_, ?_⟩
      · rw [Ne, List.reverse_eq_nil_iff]
        intro h0
        rw [h0] at hne
        exact hne rfl
      · intro c hc
        exact hcur c (List.mem_reverse.mp hc)
  | cons a rest ih =>
    intro cur hcur w hw
    simp only [splitWsAux] at hw
    split at hw
    · split at hw
      · exact ih [] (by simp) w hw
      · rename_i hne
        rcases List.mem_cons.mp hw with rfl | hmem
        · refine ⟨?_, ?_⟩
          · rw [Ne, List.reverse_eq_nil_iff]
            intro h0
            rw [h0] at hne
            exact hne rfl
          · intro c hc
            exact hcur c (List.mem_reverse.mp hc)
        · exact ih [] (by simp) w hmem
    · rename_i hsp
      refine ih (a :: cur) ?_ w hw
      intro c hc
      rcases List.mem_cons.mp hc with rfl | h
      · simpa using hsp
      · exact hcur c h

theorem splitWsAux_word : ∀ (w cur rest : List Char),
    (∀ c ∈ w, pyIsSpace c = false) →
    splitWsAux cur (w ++ rest) = splitWsAux (w.reverse ++ cur) rest := by
  intro w
  induction w with
  | nil => intro cur rest _; simp
  | cons a w' ih =>
    intro cur rest hw
    have ha : pyIsSpace a = false := hw a (List.mem_cons_self _ _)
    simp only [List.cons_append, splitWsAux, ha, Bool.false_eq_true, if_false,
      List.append_eq]
    rw [ih (a :: cur) rest (fun c hc => hw c (List.mem_cons_of_mem _ hc))]
    simp

theorem joinWords_ne_nil (w : List Char) (ws : List (List Char)) (hw : w ≠ []) :
    joinWords (w :: ws) ≠ [] := by
  cases ws with
  | nil => exact hw
  | cons w2 ws' => simp [joinWords]

theorem joinWords_head? (w : List Char) (ws : List (List Char)) (hw : w ≠ []) :
    (joinWords (w :: ws)).head? = w.head? := by
  cases ws with
  | nil => rfl
  | cons w2 ws' =>
    rw [show joinWords (w :: w2 :: ws') = w ++ ' ' :: joinWords (w2 :: ws') from rfl]
    rw [List.head?_append]
    cases hh : w.head? with
    | none => exact absurd (List.head?_eq_none_iff.mp hh) hw
    | some c => rfl

theorem joinWords_getLast? : ∀ (ws : List (List Char)),
    (∀ w ∈ ws, w ≠ []) → ∀ c, (joinWords ws).getLast? = some c →
    ∃ w ∈ ws, w.getLast? = some c := by
  intro ws
  induction ws with
  | nil =>
    intro _ c hc
    simp [joinWords] at hc
  | cons w ws' ih =>
    intro hall c hc
    cases ws' with
    | nil => exact ⟨w, List.mem_cons_self _ _, hc⟩
    | cons w2 ws'' =>
      rw [show joinWords (w :: w2 :: ws'') = w ++ ' ' :: joinWords (w2 :: ws'') from rfl,
        List.getLast?_append_of_ne_nil _ (by simp)] at hc
      have hl : joinWords (w2 :: ws'') ≠ [] :=
        joinWords_ne_nil w2 ws'' (hall w2 (List.mem_cons_of_mem _ (List.mem_cons_self _ _)))
      rw [show (' ' :: joinWords (w2 :: ws'')) = [' '] ++ joinWords (w2 :: ws'') from rfl,
        List.getLast?_append_of_ne_nil _ hl] at hc
      rcases ih (fun w hw => hall w (List.mem_cons_of_mem _ hw)) c hc with ⟨w', h1, h2⟩
      exact ⟨w', List.mem_cons_of_mem _ h1, h2⟩

theorem mem_joinWords : ∀ (ws : List (List Char)) (c : Char), c ∈ joinWords ws →
    (∃ w ∈ ws, c ∈ w) ∨ c = ' ' := by
  intro ws
  induction ws with
  | nil => intro c hc; simp [joinWords] at hc
  | cons w ws' ih =>
    intro c hc
    cases ws' with
    | nil => exact Or.inl ⟨w, List.mem_cons_self _ _, hc⟩
    | cons w2 ws'' =>
      rw [show joinWords (w :: w2 :: ws'') = w ++ ' ' :: joinWords (w2 :: ws'') from rfl] at hc
      rcases List.mem_append.mp hc with h | h
      · exact Or.inl ⟨w, List.mem_cons_self _ _, h⟩
      · rcases List.mem_cons.mp h with rfl | h2
        · exact Or.inr rfl
        · rcases ih c h2 with ⟨w', hw', hc'⟩ | hsp
          · exact Or.inl ⟨w', List.mem_cons_of_mem _ hw', hc'⟩
          · exact Or.inr hsp

theorem splitWs_joinWords : ∀ (ws : List (List Char)),
    (∀ w ∈ ws, w ≠ [] ∧ ∀ c ∈ w, pyIsSpace c = false) →
    splitWs (joinWords ws) = ws := by
  intro ws
  induction ws with
  | nil => intro _; rfl
  | cons w ws' ih =>
    intro hall
    have hw := hall w (List.mem_cons_self _ _)
    cases ws' with
    | nil =>
      show splitWsAux [] w = [w]
      rw [← List.append_nil w, splitWsAux_word w [] [] hw.2]
      simp only [List.append_nil, splitWsAux]
      rw [if_neg, List.reverse_reverse]
      rw [List.isEmpty_eq_true, List.reverse_eq_nil_iff]
      exact fun h => hw.1 h
    | cons w2 ws'' =>
      show splitWsAux [] (w ++ ' ' :: joinWords (w2 :: ws'')) = w :: w2 :: ws''
      rw [splitWsAux_word w [] _ hw.2]
      simp only [List.append_nil, splitWsAux]
      rw [if_pos (show pyIsSpace ' ' = true by decide), if_neg, List.reverse_reverse]
      · have ih' : splitWsAux [] (joinWords (w2 :: ws'')) = w2 :: ws'' :=
          ih (fun v hv => hall v (List.mem_cons_of_mem _ hv))
        rw [ih']
      · rw [List.isEmpty_eq_true, List.reverse_eq_nil_iff]
        exact fun h => hw.1 h

theorem hasTwoAdjacentSpaces_cons (c : Char) (l : List Char)
    (hc : pyIsSpace c = false) (hl : hasTwoAdjacentSpaces l = false) :
    hasTwoAdjacentSpaces (c :: l) = false := by
  have hcs : (c = ' ') = False := by
    simp only [pyIsSpace, Bool.or_eq_false_iff] at hc
    simp only [eq_iff_iff, iff_false]
    intro h
    rw [decide_eq_false_iff_not] at *
    exact hc.1.1.1.1.1 h
  cases l with
  | nil => rfl
  | cons d l' =>
    rw [hasTwoAdjacentSpaces, hl]
    simp [hcs]

theorem hasTwoAdjacentSpaces_append (w l : List Char)
    (hw : ∀ c ∈ w, pyIsSpace c = false) (hl : hasTwoAdjacentSpaces l = false) :
    hasTwoAdjacentSpaces (w ++ l) = false := by
  induction w with
  | nil => exact hl
  | cons a w' ih =>
    rw [List.cons_append]
    exact hasTwoAdjacentSpaces_cons a (w' ++ l) (hw a (List.mem_cons_self _ _))
      (ih (fun c hc => hw c (List.mem_cons_of_mem _ hc)))

theorem hasTwoAdjacentSpaces_joinWords : ∀ (ws : List (List Char)),
    (∀ w ∈ ws, w ≠ [] ∧ ∀ c ∈ w, pyIsSpace c = false) →
    hasTwoAdjacentSpaces (joinWords ws) = false := by
  intro ws
  induction ws with
  | nil => intro _; rfl
  | cons w ws' ih =>
    intro hall
    have hw := hall w (List.mem_cons_self _ _)
    cases ws' with
    | nil =>
      have hnil := hasTwoAdjacentSpaces_append w [] hw.2 rfl
      rwa [List.append_nil] at hnil
    | cons w2 ws'' =>
      have hw2 := hall w2 (List.mem_cons_of_mem _ (List.mem_cons_self _ _))
      have hrest : hasTwoAdjacentSpaces (joinWords (w2 :: ws'')) = false :=
        ih (fun v hv => hall v (List.mem_cons_of_mem _ hv))
      show hasTwoAdjacentSpaces (w ++ ' ' :: joinWords (w2 :: ws'')) = false
      refine hasTwoAdjacentSpaces_append w _ hw.2 ?_
      cases hjl : joinWords (w2 :: ws'') with
      | nil => rfl
      | cons c2 rest =>
        have hc2 : pyIsSpace c2 = false := by
          have hh : (joinWords (w2 :: ws'')).head? = w2.head? :=
            joinWords_head? w2 ws'' hw2.1
          rw [hjl] at hh
          cases w2 with
          | nil => exact absurd rfl hw2.1
          | cons b t =>
            rw [List.head?_cons, List.head?_cons, Option.some.injEq] at hh
            subst hh
            exact hw2.2 _ (List.mem_cons_self _ _)
        have hcs : (c2 = ' ') = False := by
          simp only [pyIsSpace, Bool.or_eq_false_iff] at hc2
          simp only [eq_iff_iff, iff_false]
          intro h
          rw [decide_eq_false_iff_not] at *
          exact hc2.1.1.1.1.1 h
        rw [hjl] at hrest
        rw [hasTwoAdjacentSpaces, hrest]
        simp [hcs]

theorem dropWhile_eq_self_of_head (p : Char → Bool) (s : List Char)
    (h : ∀ c, s.head? = some c → p c = false) : s.dropWhile p = s := by
  cases s with
  | nil => rfl
  | cons a t =>
    rw [List.dropWhile_cons, h a rfl]
    simp

theorem pyStripP_eq_self (p : Char → Bool) (s : List Char)
    (h1 : ∀ c, s.head? = some c → p c = false)
    (h2 : ∀ c, s.getLast? = some c → p c = false) : pyStripP p s = s := by
  unfold pyStripP
  rw [dropWhile_eq_self_of_head p s h1]
  have hrev : ∀ c, s.reverse.head? = some c → p c = false := by
    intro c hc
    rw [List.head?_reverse] at hc
    exact h2 c hc
  rw [dropWhile_eq_self_of_head p s.reverse hrev, List.reverse_reverse]

theorem joinWords_splitWs_head (s : List Char) (c : Char)
    (hc : (joinWords (splitWs s)).head? = some c) : pyIsSpace c = false := by
  cases hsp : splitWs s with
  | nil => rw [hsp] at hc; simp [joinWords] at hc
  | cons w ws' =>
    have hgood : ∀ w ∈ splitWs s, w ≠ [] ∧ ∀ c ∈ w, pyIsSpace c = false :=
      splitWsAux_good s [] (by simp)
    rw [hsp] at hgood
    have hw := hgood w (List.mem_cons_self _ _)
    rw [hsp, joinWords_head? w ws' hw.1] at hc
    cases w with
    | nil => exact absurd rfl hw.1
    | cons b t =>
      rw [List.head?_cons, Option.some.injEq] at hc
      subst hc
      exact hw.2 _ (List.mem_cons_self _ _)

theorem joinWords_splitWs_getLast (s : List Char) (c : Char)
    (hc : (joinWords (splitWs s)).getLast? = some c) : pyIsSpace c = false := by
  have hgood : ∀ w ∈ splitWs s, w ≠ [] ∧ ∀ c ∈ w, pyIsSpace c = false :=
    splitWsAux_good s [] (by simp)
  rcases joinWords_getLast? (splitWs s) (fun w hw => (hgood w hw).1) c hc with ⟨w, hwmem, hwlast⟩
  exact (hgood w hwmem).2 c (List.mem_of_getLast?_eq_some hwlast)

theorem clean_text_eq_joinWords (s : List Char) :
    clean_text s = joinWords (splitWs s) := by
  unfold clean_text
  exact pyStripP_eq_self pyIsSpace _ (joinWords_splitWs_head s) (joinWords_splitWs_getLast s)

/-- C8: `clean_text` is idempotent, every whitespace character in its
output is a plain space, no two adjacent spaces remain, and the output
neither starts nor ends with whitespace. -/
theorem C8_clean_text_idempotent_and_normal (s : List Char) :
    clean_text (clean_text s) = clean_text s ∧
    (∀ c ∈ clean_text s, pyIsSpace c = true → c = ' ') ∧
    hasTwoAdjacentSpaces (clean_text s) = false ∧
    (∀ c, (clean_text s).head? = some c → pyIsSpace c = false) ∧
    (∀ c, (clean_text s).getLast? = some c → pyIsSpace c = false) := by
  have hgood : ∀ w ∈ splitWs s, w ≠ [] ∧ ∀ c ∈ w, pyIsSpace c = false :=
    splitWsAux_good s [] (by simp)
  refine ⟨?_, ?_, ?_, ?_, ?_⟩
  · rw [clean_text_eq_joinWords s, clean_text_eq_joinWords (joinWords (splitWs s)),
      splitWs_joinWords (splitWs s) hgood]
  · intro c hc hsp
    rw [clean_text_eq_joinWords s] at hc
    rcases mem_joinWords (splitWs s) c hc with ⟨w, hw, hcw⟩ | hs
    · rw [(hgood w hw).2 c hcw] at hsp
      exact absurd hsp (by decide)
    · exact hs
  · rw [clean_text_eq_joinWords s]
    exact hasTwoAdjacentSpaces_joinWords (splitWs s) hgood
  · intro c hc
    rw [clean_text_eq_joinWords s] at hc
    exact joinWords_splitWs_head s c hc
  · intro c hc
    rw [clean_text_eq_joinWords s] at hc
    exact joinWords_splitWs_getLast s c hc

/-- Witness for C8: the cleaned text of a concrete padded string starts
with a non-space character. -/
theorem C8_clean_text_idempotent_and_normal_witness : pyIsSpace 'a' = false :=
  (C8_clean_text_idempotent_and_normal (chars " a  b ")).2.2.2.1 'a' (by decide)

theorem dictInsert_eq_append {β : Type} (d : List (List Char × β)) (k : List Char)
    (v : β) (hk : ∀ e ∈ d, e.1 ≠ k) : dictInsert d k v = d ++ [(k, v)] := by
  induction d with
  | nil => rfl
  | cons e rest ih =>
    obtain ⟨ek, ev⟩ := e
    simp only [dictInsert]
    rw [if_neg (hk (ek, ev) (List.mem_cons_self _ _))]
    rw [ih (fun e he => hk e (List.mem_cons_of_mem _ he))]
    simp

theorem foldl_dictInsert_disjoint {β : Type} : ∀ (pairs d : List (List Char × β)),
    (pairs.map Prod.fst).Nodup →
    (∀ e ∈ d, ∀ p ∈ pairs, e.1 ≠ p.1) →
    pairs.foldl (fun acc p => dictInsert acc p.1 p.2) d = d ++ pairs := by
  intro pairs
  induction pairs with
  | nil => intro d _ _; simp
  | cons p ps ih =>
    intro d hnd hdis
    rw [List.map_cons] at hnd
    have hnd2 : (p.1 ∉ ps.map Prod.fst) ∧ (ps.map Prod.fst).Nodup :=
      List.nodup_cons.mp hnd
    have hdis2 : ∀ e ∈ d ++ [p], ∀ q ∈ ps, e.1 ≠ q.1 := by
      intro e he q hq
      rcases List.mem_append.mp he with hed | hep
      · exact hdis e hed q (List.mem_cons_of_mem _ hq)
      · rw [List.mem_singleton] at hep
        subst hep
        intro hcontra
        exact hnd2.1 (hcontra ▸ List.mem_map_of_mem Prod.fst hq)
    rw [List.foldl_cons,
      dictInsert_eq_append d p.1 p.2 (fun e he => hdis e he p (List.mem_cons_self _ _)),
      ih (d ++ [p]) hnd2.2 hdis2]
    simp

theorem dictLookup_nodup_get {β : Type} : ∀ (ps : List (List Char × β)),
    (ps.map Prod.fst).Nodup → ∀ (j : Nat) (hj : j < ps.length),
    dictLookup (ps.get ⟨j, hj⟩).1 ps = some (ps.get ⟨j, hj⟩).2 := by
  intro ps
  induction ps with
  | nil => intro _ j hj; exact absurd hj (by simp)
  | cons p ps' ih =>
    intro hnd j hj
    rw [List.map_cons] at hnd
    have hnd2 := List.nodup_cons.mp hnd
    cases j with
    | zero =>
      obtain ⟨pk, pv⟩ := p
      simp [dictLookup]
    | succ j' =>
      have hj' : j' < ps'.length := by simpa using hj
      have hmem : ps'.get ⟨j', hj'⟩ ∈ ps' := List.get_mem ps' j' hj'
      have hne : p.1 ≠ (ps'.get ⟨j', hj'⟩).1 := by
        intro he
        exact hnd2.1 (he ▸ List.mem_map_of_mem Prod.fst hmem)
      obtain ⟨pk, pv⟩ := p
      show dictLookup (ps'.get ⟨j', hj'⟩).1 ((pk, pv) :: ps') = _
      rw [dictLookup, if_neg hne]
      exact ih hnd2.2 j' hj'

theorem map_fst_zip_take {α β : Type} : ∀ (l₁ : List α) (l₂ : List β),
    (l₁.zip l₂).map Prod.fst = l₁.take (min l₁.length l₂.length) := by
  intro l₁
  induction l₁ with
  | nil => intro l₂; simp
  | cons a l ih =>
    intro l₂
    cases l₂ with
    | nil => simp
    | cons b t =>
      simp only [List.zip_cons_cons, List.map_cons, List.length_cons,
        Nat.succ_min_succ, List.take_succ_cons]
      rw [ih t]

/-- C4 counterexample: with duplicate header labels the row object does
not map `H[j]` to the cleaned `C[j]` for every `j < min`: headers
`["A", "A"]` with data cells `["x", "y"]` produce the single-entry row
object `{"A": "y"}`, which does not map `H[0] = "A"` to `"x"`. -/
theorem C4_row_mapping_counterexample :
    emitTable 0
      { prevH2 := some (chars "T")
        rows := [ { allCells := [chars "A", chars "A"], dataCells := [] },
                  { allCells := [], dataCells := [chars "x", chars "y"] } ] } =
      some (chars "t",
        { title := chars "T"
          headers := [chars "A", chars "A"]
          rows := [[(chars "A", chars "y")]] }) ∧
    dictLookup (chars "A") (buildRowObj [chars "A", chars "A"] [chars "x", chars "y"]) ≠
      some (clean_text (chars "x")) := by
  constructor
  · decide
  · decide

/-- C4 (amended): when the cleaned header labels are pairwise distinct,
the emitted row object maps header `H[j]` to the cleaned text of cell
`C[j]` for exactly `j < min(|H|, |C|)` (its key sequence is precisely
the first `min(|H|, |C|)` headers, extra cells or headers being
dropped); with duplicate labels the later cell overwrites the earlier
one, per the counterexample.  The spec's concrete example holds:
header row `["Mode", "Rate"]` with data row `["chill", "42.5%"]`
yields the single row object `{"Mode": "chill", "Rate": "42.5%"}`. -/
theorem C4_row_mapping_min_positions (headers cells : List (List Char))
    (hnd : headers.Nodup) :
    ((buildRowObj headers cells).map Prod.fst =
       headers.take (min headers.length cells.length)) ∧
    (∀ (j : Nat) (hj : j < min headers.length cells.length),
       dictLookup headers[j] (buildRowObj headers cells) =
         some (clean_text cells[j])) ∧
    emitTable 0
      { prevH2 := some (chars "Results")
        rows := [ { allCells := [chars "Mode", chars "Rate"], dataCells := [] },
                  { allCells := [], dataCells := [chars "chill", chars "42.5%"] } ] } =
      some (chars "results",
        { title := chars "Results"
          headers := [chars "Mode", chars "Rate"]
          rows := [[(chars "Mode", chars "chill"), (chars "Rate", chars "42.5%")]] }) := by
  have hkeys : ((headers.zip cells).map (fun p => (p.1, clean_text p.2))).map Prod.fst =
      headers.take (min headers.length cells.length) := by
    rw [List.map_map]
    have : (Prod.fst ∘ fun p : List Char × List Char => (p.1, clean_text p.2)) =
        Prod.fst := rfl
    rw [this, map_fst_zip_take]
  have hnodup : (((headers.zip cells).map
      (fun p => (p.1, clean_text p.2))).map Prod.fst).Nodup := by
    rw [hkeys]
    exact hnd.sublist (List.take_sublist _ _)
  have hbuild : buildRowObj headers cells =
      (headers.zip cells).map (fun p => (p.1, clean_text p.2)) := by
    unfold buildRowObj
    rw [foldl_dictInsert_disjoint _ [] hnodup (by simp)]
    simp
  refine ⟨?_, ?_, by decide⟩
  · rw [hbuild, hkeys]
  · intro j hj
    have hjp : j < ((headers.zip cells).map (fun p => (p.1, clean_text p.2))).length := by
      simp [List.length_zip]
      omega
    have hlook := dictLookup_nodup_get _ hnodup j hjp
    simp only [List.get_eq_getElem, List.getElem_map, List.getElem_zip] at hlook
    rw [hbuild]
    exact hlook

/-- Witness for C4: the Mode/Rate example row object resolves the first
header to the first cleaned cell. -/
theorem C4_row_mapping_min_positions_witness :
    dictLookup ([chars "Mode", chars "Rate"][0])
      (buildRowObj [chars "Mode", chars "Rate"] [chars "chill", chars "42.5%"]) =
      some (clean_text ([chars "chill", chars "42.5%"][0])) :=
  (C4_row_mapping_min_positions [chars "Mode", chars "Rate"]
    [chars "chill", chars "42.5%"] (by decide)).2.1 0 (by decide)

/-- Witness for C9: two failing sources persist nothing and exit 1. -/
theorem C9_mainRun_success_accounting_witness :
    (mainRun [(chars "master", none), (chars "wmi", none)]).persisted = false ∧
    (mainRun [(chars "master", none), (chars "wmi", none)]).exitCode = 1 :=
  (C9_mainRun_success_accounting [(chars "master", none), (chars "wmi", none)]).2.1
    (by decide)

end Scraper
